import Mathlib

/-!
Verification of the strokes-gained core of the sg-tracker repository.

The embedding below translates, over exact rationals, the code of
`src/types/golf.ts` (shot model, `categorizeShot`, `calculateStrokesGained`),
`src/lib/expectedStrokes.ts` (`PGA_BASELINE`, `interpolate`,
`getExpectedStrokes`), and the dashboard aggregation (`sumTotals`,
`aggregate`).  JavaScript numbers are modelled as `ℚ`; the `number | null`
return type becomes `Option ℚ`; `Math.round` on exact rationals is
`fun x => Int.floor (x + 1/2)` (round half toward +infinity).  The module
constant `PGA_BASELINE` is threaded as an explicit parameter `B` so that the
behaviour on degraded baseline data (the "unavailable" branch of the spec)
is expressible; the shipped functions are the specialisations at
`PGA_BASELINE`.
-/

/-- The seven lie categories of `src/types/golf.ts`. -/
inductive Lie
  | TEE
  | FAIRWAY
  | ROUGH
  | BUNKER
  | RECOVERY
  | GREEN
  | FRINGE
deriving DecidableEq, Repr

/-- One shot record, `src/types/golf.ts`.  All JS numbers are modelled as `ℚ`;
the optional `putts` field is an `Option`. -/
structure Shot where
  holeNumber : ℚ
  shotNumber : ℚ
  startLie : Lie
  startDistance : ℚ
  endLie : Lie
  endDistance : ℚ
  penaltyStrokes : ℚ
  putts : Option ℚ
deriving DecidableEq, Repr

/-- A baseline curve: ordered (distance, expectedStrokes) control points. -/
abbrev Table := List (ℚ × ℚ)

/-- The per-lie baseline of `src/lib/expectedStrokes.ts` (`Record<Lie, Table>`
modelled as a function). -/
abbrev Baseline := Lie → Table

/-- The shipped `PGA_BASELINE` constant of `src/lib/expectedStrokes.ts`. -/
def PGA_BASELINE : Baseline
  | Lie.TEE =>
      [(100, 2.92), (120, 2.99), (140, 2.97), (160, 2.99), (180, 3.05),
       (200, 3.12), (220, 3.17), (240, 3.25), (260, 3.45), (280, 3.65),
       (300, 3.71), (320, 3.79), (340, 3.86), (360, 3.92), (380, 3.96),
       (400, 3.99), (420, 4.02), (440, 4.08), (460, 4.17), (480, 4.28),
       (500, 4.41), (520, 4.54), (540, 4.65), (560, 4.74), (580, 4.79),
       (600, 4.82)]
  | Lie.FAIRWAY =>
      [(20, 2.4), (40, 2.6), (60, 2.7), (80, 2.75), (100, 2.8),
       (120, 2.85), (140, 2.91), (160, 2.98), (180, 3.08), (200, 3.19),
       (220, 3.32), (240, 3.45), (260, 3.58), (280, 3.69), (300, 3.78),
       (320, 3.84), (340, 3.88), (360, 3.95), (380, 4.03), (400, 4.11),
       (420, 4.15), (440, 4.2), (460, 4.29), (480, 4.4), (500, 4.53),
       (520, 4.66), (540, 4.78), (560, 4.86), (580, 4.91), (600, 4.94)]
  | Lie.ROUGH =>
      [(20, 2.59), (40, 2.78), (60, 2.91), (80, 2.96), (100, 3.02),
       (120, 3.08), (140, 3.15), (160, 3.23), (180, 3.31), (200, 3.42),
       (220, 3.53), (240, 3.64), (260, 3.74), (280, 3.83), (300, 3.9),
       (320, 3.95), (340, 4.02), (360, 4.11), (380, 4.21), (400, 4.3),
       (420, 4.34), (440, 4.39), (460, 4.48), (480, 4.59), (500, 4.72),
       (520, 4.85), (540, 4.97), (560, 5.05), (580, 5.1), (600, 5.13)]
  | Lie.BUNKER =>
      [(20, 2.53), (40, 2.82), (60, 3.15), (80, 3.24), (100, 3.23),
       (120, 3.21), (140, 3.22), (160, 3.28), (180, 3.4), (200, 3.55),
       (220, 3.7), (240, 3.84), (260, 3.93), (280, 4.0), (300, 4.04),
       (320, 4.12), (340, 4.26), (360, 4.41), (380, 4.55), (400, 4.69),
       (420, 4.73), (440, 4.78), (460, 4.87), (480, 4.98), (500, 5.11),
       (520, 5.24), (540, 5.36), (560, 5.44), (580, 5.49), (600, 5.52)]
  | Lie.RECOVERY =>
      [(100, 3.8), (120, 3.78), (140, 3.8), (160, 3.81), (180, 3.82),
       (200, 3.87), (220, 3.92), (240, 3.97), (260, 4.03), (280, 4.1),
       (300, 4.2), (320, 4.31), (340, 4.44), (360, 4.56), (380, 4.66),
       (400, 4.75), (420, 4.79), (440, 4.84), (460, 4.93), (480, 5.04),
       (500, 5.17), (520, 5.3), (540, 5.42), (560, 5.5), (580, 5.55),
       (600, 5.58)]
  | Lie.FRINGE => []
  | Lie.GREEN =>
      [(3, 1.04), (4, 1.13), (5, 1.23), (6, 1.34), (7, 1.42),
       (8, 1.5), (9, 1.56), (10, 1.61), (15, 1.78), (20, 1.87),
       (30, 1.98), (40, 2.06), (50, 2.14), (60, 2.21), (90, 2.4)]

/-- The scan loop of `interpolate` (`src/lib/expectedStrokes.ts` lines
198-205): walk consecutive control-point pairs in order and return the linear
interpolation of the first pair bracketing the distance; `fb` is the
post-loop fallback `last[1]`. -/
def scanSegments : Table → ℚ → ℚ → ℚ
  | p0 :: p1 :: rest, distance, fb =>
      if p0.1 ≤ distance ∧ distance ≤ p1.1 then
        p0.2 + (distance - p0.1) / (p1.1 - p0.1) * (p1.2 - p0.2)
      else
        scanSegments (p1 :: rest) distance fb
  | _, _, fb => fb

/-- `interpolate` of `src/lib/expectedStrokes.ts`: clamp below the first and
above the last control point, otherwise scan the segments.  The source only
ever calls it on a non-empty table (its callers guard emptiness), so the `[]`
case is unreachable there. -/
def interpolate (points : Table) (distance : ℚ) : ℚ :=
  match points with
  | [] => 0
  | p0 :: _ =>
      if distance ≤ p0.1 then p0.2
      else
        let lastP := points.getLastD (0, 0)
        if lastP.1 ≤ distance then lastP.2
        else scanSegments points distance lastP.2

/-- `getExpectedStrokes` of `src/lib/expectedStrokes.ts`, with the module
constant baseline as the explicit parameter `B`.  Non-positive distances
(the exact-rational image of the JS `!Number.isFinite(d) || d <= 0` guard)
yield `some 0`; an empty resolved curve yields `none` (the JS `null`). -/
def getExpectedStrokesB (B : Baseline) (lie : Lie) (distanceM : ℚ) : Option ℚ :=
  if distanceM ≤ 0 then some 0
  else if lie = Lie.GREEN then
    let greenPoints := B Lie.GREEN
    if greenPoints = [] then none
    else some (interpolate greenPoints (distanceM * 3.28084))
  else
    let lookupLie := if lie = Lie.FRINGE then Lie.FAIRWAY else lie
    let points := B lookupLie
    if points = [] then none
    else some (interpolate points (distanceM / 0.9144))

/-- The shipped `getExpectedStrokes` (lookup against `PGA_BASELINE`). -/
def getExpectedStrokes : Lie → ℚ → Option ℚ :=
  getExpectedStrokesB PGA_BASELINE

/-- The four shot categories of `src/types/golf.ts`. -/
inductive ShotCategory
  | OTT
  | APP
  | ARG
  | PUTT
deriving DecidableEq, Repr

/-- `categorizeShot` of `src/types/golf.ts` (§4.3): fixed priority order on
`startLie`, with the 30-meter split for fairway/rough starts. -/
def categorizeShot (shot : Shot) : ShotCategory :=
  if shot.startLie = Lie.TEE then ShotCategory.OTT
  else if shot.startLie = Lie.GREEN then ShotCategory.PUTT
  else if shot.startLie = Lie.FRINGE then ShotCategory.ARG
  else if shot.startLie = Lie.BUNKER ∨ shot.startLie = Lie.RECOVERY then ShotCategory.ARG
  else if shot.startDistance ≤ 30 then ShotCategory.ARG
  else ShotCategory.APP

/-- The result record of `calculateStrokesGained`. -/
structure SGResult where
  sg : Option ℚ
  category : ShotCategory
  isValid : Bool
deriving DecidableEq, Repr

/-- JS `Math.round` on an exact rational: round half toward +infinity. -/
def jsMathRound (x : ℚ) : ℤ := Int.floor (x + 1/2)

/-- The source's rounding `Math.round(raw * 1000) / 1000`. -/
def round3 (q : ℚ) : ℚ := (jsMathRound (q * 1000) : ℚ) / 1000

/-- The `isHoled` test of `calculateStrokesGained` (line 52-54). -/
def isHoled (shot : Shot) : Bool :=
  decide ((shot.endLie = Lie.GREEN ∧ shot.endDistance = 0) ∨
          (shot.startLie = Lie.GREEN ∧ shot.putts.isSome = true))

/-- The `expectedEnd` value of `calculateStrokesGained` (line 55): zero
when holed, otherwise an end-position baseline lookup. -/
def expectedEndB (B : Baseline) (shot : Shot) : Option ℚ :=
  if isHoled shot then some 0
  else getExpectedStrokesB B shot.endLie shot.endDistance

/-- The `strokesUsed` value of `calculateStrokesGained` (lines 61-64). -/
def strokesUsed (shot : Shot) : ℚ :=
  if shot.startLie = Lie.GREEN ∧ shot.putts.isSome = true then
    shot.putts.getD 0 + shot.penaltyStrokes
  else 1 + shot.penaltyStrokes

/-- `calculateStrokesGained` of `src/types/golf.ts`, baseline-parameterised.
When either expected value is unavailable the source returns the literal
record `{ sg: null, category: "APP", isValid: false }`. -/
def calculateStrokesGainedB (B : Baseline) (shot : Shot) : SGResult :=
  match getExpectedStrokesB B shot.startLie shot.startDistance, expectedEndB B shot with
  | some expectedStart, some expectedEnd =>
      { sg := some (round3 (expectedStart - expectedEnd - strokesUsed shot)),
        category := categorizeShot shot,
        isValid := true }
  | _, _ => { sg := none, category := ShotCategory.APP, isValid := false }

/-- The shipped `calculateStrokesGained` (against `PGA_BASELINE`). -/
def calculateStrokesGained : Shot → SGResult :=
  calculateStrokesGainedB PGA_BASELINE

/-- The curve `getExpectedStrokes` actually resolves for a lie: `FRINGE` is
aliased to `FAIRWAY` (lines 213-224 of `src/lib/expectedStrokes.ts`). -/
def resolvedTable (lie : Lie) : Table :=
  PGA_BASELINE (if lie = Lie.FRINGE then Lie.FAIRWAY else lie)

/-- The distance in the resolved curve's native unit: feet (factor `3.28084`)
on the green, yards (divide by `0.9144`) elsewhere. -/
def nativeDistance (lie : Lie) (d : ℚ) : ℚ :=
  if lie = Lie.GREEN then d * 3.28084 else d / 0.9144

/-- The list of consecutive control-point pairs of a curve, in order. -/
def segmentPairs : Table → List ((ℚ × ℚ) × (ℚ × ℚ))
  | p0 :: p1 :: rest => (p0, p1) :: segmentPairs (p1 :: rest)
  | _ => []

/-- Modelled from the spec (§4.2): the first consecutive pair
`(d0,s0),(d1,s1)` with `d0 ≤ distance ≤ d1`, scanning pairs in order. -/
def firstBracket (pts : Table) (x : ℚ) : Option ((ℚ × ℚ) × (ℚ × ℚ)) :=
  (segmentPairs pts).find? (fun pq => decide (pq.1.1 ≤ x ∧ x ≤ pq.2.1))

/-- Modelled from the spec (§4.2): clamp below the first control point and
above the last, otherwise linearly interpolate on the first bracketing pair;
`none` on an empty curve. -/
def specLookup (pts : Table) (x : ℚ) : Option ℚ :=
  match pts with
  | [] => none
  | p0 :: _ =>
      if x ≤ p0.1 then some p0.2
      else if (pts.getLastD (0, 0)).1 ≤ x then some (pts.getLastD (0, 0)).2
      else
        match firstBracket pts x with
        | some (p, q) => some (p.2 + (x - p.1) / (q.1 - p.1) * (q.2 - p.2))
        | none => none

/-- Modelled from the spec (§4.4 step 7 and design notes): round to 3 decimal
places with ties at the 3rd decimal rounded half away from zero. -/
def roundHalfAwayFromZero3 (q : ℚ) : ℚ :=
  if 0 ≤ q then (Int.floor (q * 1000 + 1/2) : ℚ) / 1000
  else -((Int.floor (-(q * 1000) + 1/2) : ℚ) / 1000)

/-- Rounding to 3 decimal places with ties at the 3rd decimal rounded half
up, i.e. toward +infinity (what `Math.round(raw*1000)/1000` computes on an
exact rational). -/
def roundHalfUp3 (q : ℚ) : ℚ :=
  (Int.floor (q * 1000 + 1/2) : ℚ) / 1000

/-- The control-point distances of a curve are strictly increasing. -/
def distancesSorted (pts : Table) : Prop :=
  List.Chain' (fun p q : ℚ × ℚ => p.1 < q.1) pts

/-- The control-point values of a curve are non-decreasing. -/
def valuesMono (pts : Table) : Prop :=
  List.Chain' (fun p q : ℚ × ℚ => p.2 ≤ q.2) pts

/-- The per-category totals record of the dashboard (`src/unnamed/part_000`). -/
structure Totals where
  OTT : ℚ
  APP : ℚ
  ARG : ℚ
  PUTT : ℚ
  TOTAL : ℚ
deriving DecidableEq, Repr

/-- One iteration of the `sumTotals` loop: `base[category] += sg` followed by
`base.TOTAL += sg`. -/
def bump (b : Totals) (c : ShotCategory) (sg : ℚ) : Totals :=
  match c with
  | ShotCategory.OTT => ⟨b.OTT + sg, b.APP, b.ARG, b.PUTT, b.TOTAL + sg⟩
  | ShotCategory.APP => ⟨b.OTT, b.APP + sg, b.ARG, b.PUTT, b.TOTAL + sg⟩
  | ShotCategory.ARG => ⟨b.OTT, b.APP, b.ARG + sg, b.PUTT, b.TOTAL + sg⟩
  | ShotCategory.PUTT => ⟨b.OTT, b.APP, b.ARG, b.PUTT + sg, b.TOTAL + sg⟩

/-- `sumTotals` of `src/unnamed/part_000`: sum the valid strokes-gained
values of a round's shots per category; invalid or null results are skipped
(`continue`). -/
def sumTotals (shots : List Shot) : Totals :=
  shots.foldl
    (fun base shot =>
      match calculateStrokesGained shot with
      | ⟨some sg, category, true⟩ => bump base category sg
      | _ => base)
    ⟨0, 0, 0, 0, 0⟩

/-- Round metadata, `src/types/golf.ts`.  JS numbers are `ℚ`. -/
structure Round where
  id : String
  createdAt : ℚ
  courseName : Option String
  holes : ℚ
  targetHoles : ℚ
  endedAt : Option ℚ
  shots : List Shot
deriving DecidableEq, Repr

/-- A round paired with its per-category totals (`src/unnamed/part_000`). -/
structure RoundWithTotals where
  round : Round
  totals : Totals
deriving DecidableEq, Repr

/-- The record returned by the dashboard aggregate. -/
structure Aggregate where
  avg : Totals
  best : ℚ
  worst : ℚ
deriving DecidableEq, Repr

/-- The cross-round `aggregate` of `src/unnamed/part_000` lines 60-86: on an
empty filtered list return all-zero averages with `best = 0` and `worst = 0`;
otherwise sum per category, divide by the round count, and take max/min of
the per-round totals.  (`Math.max(...)` / `Math.min(...)` over the non-empty
list of totals is its maximum/minimum; the empty case never reaches them.) -/
def aggregate (filteredRounds : List RoundWithTotals) : Aggregate :=
  if filteredRounds = [] then ⟨⟨0, 0, 0, 0, 0⟩, 0, 0⟩
  else
    let base : Totals :=
      filteredRounds.foldl
        (fun b item =>
          ⟨b.OTT + item.totals.OTT, b.APP + item.totals.APP, b.ARG + item.totals.ARG,
           b.PUTT + item.totals.PUTT, b.TOTAL + item.totals.TOTAL⟩)
        ⟨0, 0, 0, 0, 0⟩
    let count : ℚ := filteredRounds.length
    let avg : Totals :=
      ⟨base.OTT / count, base.APP / count, base.ARG / count,
       base.PUTT / count, base.TOTAL / count⟩
    let totals := filteredRounds.map (fun r => r.totals.TOTAL)
    let best := match totals with | [] => 0 | t :: ts => ts.foldl max t
    let worst := match totals with | [] => 0 | t :: ts => ts.foldl min t
    ⟨avg, best, worst⟩

/-- A baseline with every curve empty: the degraded state in which
`getExpectedStrokes` reports "unavailable" (§7 of the spec). -/
def emptyBaseline : Baseline := fun _ => []

/-- A tee shot used as a concrete input in witnesses and counterexamples. -/
def teeShot : Shot :=
  { holeNumber := 1, shotNumber := 1, startLie := Lie.TEE, startDistance := 100,
    endLie := Lie.FAIRWAY, endDistance := 50, penaltyStrokes := 0, putts := none }

/-- A holed putting sequence from `541/180/3.28084` meters (`541/180` feet,
just past the 3-foot control point), two putts.  Its raw strokes-gained value
is exactly `-0.9595`, a tie at the 3rd decimal. -/
def halfPuttShot : Shot :=
  { holeNumber := 1, shotNumber := 2, startLie := Lie.GREEN,
    startDistance := 541/180/3.28084, endLie := Lie.GREEN, endDistance := 0,
    penaltyStrokes := 0, putts := some 2 }

/-- A fairway shot holed from `18.288` meters (20 yards, the first
control point of the fairway curve). -/
def fairwayHoledShot : Shot :=
  { holeNumber := 2, shotNumber := 1, startLie := Lie.FAIRWAY,
    startDistance := 18.288, endLie := Lie.GREEN, endDistance := 0,
    penaltyStrokes := 0, putts := none }

/-- A shot starting on the fringe, used for the categorization part of the
fringe-alias claim. -/
def fringeShot : Shot :=
  { holeNumber := 3, shotNumber := 2, startLie := Lie.FRINGE,
    startDistance := 5, endLie := Lie.GREEN, endDistance := 1,
    penaltyStrokes := 0, putts := none }

/-! ## Helper lemmas -/

lemma ge_eq_interpolate (lie : Lie) (d : ℚ) (hd : 0 < d) :
    getExpectedStrokes lie d = some (interpolate (resolvedTable lie) (nativeDistance lie d)) := by
  have hd0 : ¬ d ≤ 0 := not_le.mpr hd
  cases lie <;>
    simp [getExpectedStrokes, getExpectedStrokesB, resolvedTable, nativeDistance, PGA_BASELINE, hd0]

lemma calcB_eq_of_some (B : Baseline) (shot : Shot) (es ee : ℚ)
    (hs : getExpectedStrokesB B shot.startLie shot.startDistance = some es)
    (he : expectedEndB B shot = some ee) :
    calculateStrokesGainedB B shot =
      ⟨some (round3 (es - ee - strokesUsed shot)), categorizeShot shot, true⟩ := by
  unfold calculateStrokesGainedB
  rw [hs, he]

lemma ge_isSome (lie : Lie) (d : ℚ) : (getExpectedStrokes lie d).isSome = true := by
  by_cases hd : d ≤ 0
  · simp [getExpectedStrokes, getExpectedStrokesB, hd]
  · cases lie <;> simp [getExpectedStrokes, getExpectedStrokesB, hd, PGA_BASELINE]

lemma expectedEnd_isSome (shot : Shot) :
    (expectedEndB PGA_BASELINE shot).isSome = true := by
  unfold expectedEndB
  split
  · rfl
  · exact ge_isSome shot.endLie shot.endDistance

/-! ## Claim theorems -/

/-- C6: for every baseline, lie and non-positive distance,
`getExpectedStrokes` returns exactly 0 (never unavailable), even when the
curve for that lie is empty or missing. -/
theorem nonpositive_distance_yields_zero (B : Baseline) (lie : Lie) (d : ℚ)
    (hd : d ≤ 0) : getExpectedStrokesB B lie d = some 0 := by
  simp [getExpectedStrokesB, hd]

theorem nonpositive_distance_yields_zero_witness :
    (-5 : ℚ) ≤ 0 ∧ getExpectedStrokesB emptyBaseline Lie.TEE (-5) = some 0 :=
  ⟨by norm_num, nonpositive_distance_yields_zero emptyBaseline Lie.TEE (-5) (by norm_num)⟩

/-- C7: whenever (endLie = GREEN and endDistance = 0) or (startLie = GREEN
and putts present), the `expectedEnd` used by `calculateStrokesGained` is 0,
for every baseline — the end-position curve is never consulted. -/
theorem holed_expectedEnd_is_zero (B : Baseline) (shot : Shot)
    (h : (shot.endLie = Lie.GREEN ∧ shot.endDistance = 0) ∨
         (shot.startLie = Lie.GREEN ∧ shot.putts.isSome = true)) :
    expectedEndB B shot = some 0 := by
  have hh : isHoled shot = true := decide_eq_true h
  simp [expectedEndB, hh]

theorem holed_expectedEnd_is_zero_witness :
    ((fairwayHoledShot.endLie = Lie.GREEN ∧ fairwayHoledShot.endDistance = 0) ∨
     (fairwayHoledShot.startLie = Lie.GREEN ∧ fairwayHoledShot.putts.isSome = true)) ∧
    expectedEndB emptyBaseline fairwayHoledShot = some 0 :=
  ⟨Or.inl ⟨rfl, rfl⟩,
   holed_expectedEnd_is_zero emptyBaseline fairwayHoledShot (Or.inl ⟨rfl, rfl⟩)⟩

/-- C8: the FRINGE lookup resolves through the FAIRWAY curve for every
distance, while `categorizeShot` assigns ARG to every FRINGE start. -/
theorem fringe_alias_lookup_and_categorization :
    (∀ d : ℚ, getExpectedStrokes Lie.FRINGE d = getExpectedStrokes Lie.FAIRWAY d) ∧
    (∀ shot : Shot, shot.startLie = Lie.FRINGE → categorizeShot shot = ShotCategory.ARG) := by
  constructor
  · intro d
    by_cases hd : d ≤ 0 <;> simp [getExpectedStrokes, getExpectedStrokesB, hd]
  · intro shot h
    simp [categorizeShot, h]

theorem fringe_alias_witness :
    getExpectedStrokes Lie.FRINGE 25 = getExpectedStrokes Lie.FAIRWAY 25 ∧
    fringeShot.startLie = Lie.FRINGE ∧ categorizeShot fringeShot = ShotCategory.ARG :=
  ⟨fringe_alias_lookup_and_categorization.1 25, rfl,
   fringe_alias_lookup_and_categorization.2 fringeShot rfl⟩

/-- C10: the cross-round aggregate of an empty filtered list is all-zero
averages with best = 0 and worst = 0. -/
theorem aggregate_empty_is_all_zero :
    aggregate [] = ⟨⟨0, 0, 0, 0, 0⟩, 0, 0⟩ := rfl

/-- C1 (amended): on an invalid result the category field is the constant
APP, whatever the shot's §4.3 categorization. -/
theorem invalid_result_category_is_APP (B : Baseline) (shot : Shot)
    (h : (calculateStrokesGainedB B shot).isValid = false) :
    (calculateStrokesGainedB B shot).category = ShotCategory.APP := by
  unfold calculateStrokesGainedB at h ⊢
  rcases hs : getExpectedStrokesB B shot.startLie shot.startDistance with _ | es <;>
    rcases he : expectedEndB B shot with _ | ee <;>
      simp_all

theorem invalid_result_category_is_APP_witness :
    (calculateStrokesGainedB emptyBaseline teeShot).isValid = false ∧
    (calculateStrokesGainedB emptyBaseline teeShot).category = ShotCategory.APP :=
  ⟨by decide, invalid_result_category_is_APP emptyBaseline teeShot (by decide)⟩

/-- C1 counterexample: with an incomplete baseline, a tee shot yields an
invalid result whose category is APP, while its §4.3 categorization is OTT. -/
theorem invalid_result_category_mismatch_cex :
    (calculateStrokesGainedB emptyBaseline teeShot).isValid = false ∧
    (calculateStrokesGainedB emptyBaseline teeShot).sg = none ∧
    (calculateStrokesGainedB emptyBaseline teeShot).category = ShotCategory.APP ∧
    categorizeShot teeShot = ShotCategory.OTT ∧
    ShotCategory.APP ≠ ShotCategory.OTT := by decide

/-- C4: when both expected values are available, the result is valid, its
category is the §4.3 categorization, and its sg is the 3-decimal rounding of
expectedStart − expectedEnd − strokesUsed, with strokesUsed = putts +
penaltyStrokes on a green start with putts present and 1 + penaltyStrokes
otherwise. -/
theorem valid_result_formula (shot : Shot) (es ee : ℚ)
    (hs : getExpectedStrokes shot.startLie shot.startDistance = some es)
    (he : expectedEndB PGA_BASELINE shot = some ee) :
    (calculateStrokesGained shot).isValid = true ∧
    (calculateStrokesGained shot).sg =
      some (round3 (es - ee -
        (if shot.startLie = Lie.GREEN ∧ shot.putts.isSome = true
         then shot.putts.getD 0 + shot.penaltyStrokes
         else 1 + shot.penaltyStrokes))) ∧
    (calculateStrokesGained shot).category = categorizeShot shot := by
  have hc := calcB_eq_of_some PGA_BASELINE shot es ee hs he
  simp only [calculateStrokesGained, hc, strokesUsed]
  exact ⟨trivial, trivial, trivial⟩

theorem valid_result_formula_witness :
    getExpectedStrokes fairwayHoledShot.startLie fairwayHoledShot.startDistance = some 2.4 ∧
    expectedEndB PGA_BASELINE fairwayHoledShot = some 0 ∧
    ((calculateStrokesGained fairwayHoledShot).isValid = true ∧
     (calculateStrokesGained fairwayHoledShot).sg =
       some (round3 (2.4 - 0 -
         (if fairwayHoledShot.startLie = Lie.GREEN ∧ fairwayHoledShot.putts.isSome = true
          then fairwayHoledShot.putts.getD 0 + fairwayHoledShot.penaltyStrokes
          else 1 + fairwayHoledShot.penaltyStrokes))) ∧
     (calculateStrokesGained fairwayHoledShot).category = categorizeShot fairwayHoledShot) := by
  have hs : getExpectedStrokes fairwayHoledShot.startLie fairwayHoledShot.startDistance
      = some 2.4 := by
    show getExpectedStrokes Lie.FAIRWAY 18.288 = some 2.4
    rw [ge_eq_interpolate Lie.FAIRWAY 18.288 (by norm_num)]
    simp [resolvedTable, nativeDistance]
    norm_num [PGA_BASELINE, interpolate, scanSegments, List.getLastD]
  have he : expectedEndB PGA_BASELINE fairwayHoledShot = some 0 := by
    simp [expectedEndB, isHoled, fairwayHoledShot]
  exact ⟨hs, he, valid_result_formula fairwayHoledShot 2.4 0 hs he⟩

/-- C2 (amended): a valid result's sg is expectedStart − expectedEnd −
strokesUsed rounded to 3 decimals with ties rounded half up (toward
+infinity), not half away from zero. -/
theorem valid_sg_rounds_half_up (shot : Shot) (es ee : ℚ)
    (hs : getExpectedStrokes shot.startLie shot.startDistance = some es)
    (he : expectedEndB PGA_BASELINE shot = some ee) :
    (calculateStrokesGained shot).sg = some (roundHalfUp3 (es - ee - strokesUsed shot)) := by
  have hc := calcB_eq_of_some PGA_BASELINE shot es ee hs he
  simp only [calculateStrokesGained, hc]
  rfl

theorem valid_sg_rounds_half_up_witness :
    getExpectedStrokes halfPuttShot.startLie halfPuttShot.startDistance = some 1.0405 ∧
    expectedEndB PGA_BASELINE halfPuttShot = some 0 ∧
    (calculateStrokesGained halfPuttShot).sg =
      some (roundHalfUp3 (1.0405 - 0 - strokesUsed halfPuttShot)) := by
  have hs : getExpectedStrokes halfPuttShot.startLie halfPuttShot.startDistance
      = some 1.0405 := by
    show getExpectedStrokes Lie.GREEN (541/180/3.28084) = some 1.0405
    rw [ge_eq_interpolate Lie.GREEN _ (by norm_num)]
    simp [resolvedTable, nativeDistance]
    norm_num [PGA_BASELINE, interpolate, scanSegments, List.getLastD]
  have he : expectedEndB PGA_BASELINE halfPuttShot = some 0 := by
    simp [expectedEndB, isHoled, halfPuttShot]
  exact ⟨hs, he, valid_sg_rounds_half_up halfPuttShot 1.0405 0 hs he⟩

/-- C2 counterexample: the putting sequence `halfPuttShot` has raw
strokes-gained exactly `-0.9595`; the code returns `-0.959` (half toward
+infinity) while round-half-away-from-zero yields `-0.96`. -/
theorem sg_tie_not_half_away_from_zero_cex :
    getExpectedStrokes halfPuttShot.startLie halfPuttShot.startDistance = some 1.0405 ∧
    expectedEndB PGA_BASELINE halfPuttShot = some 0 ∧
    strokesUsed halfPuttShot = 2 ∧
    (calculateStrokesGained halfPuttShot).sg = some (-0.959) ∧
    roundHalfAwayFromZero3 (1.0405 - 0 - 2) = -0.96 ∧
    ((-0.959 : ℚ) ≠ -0.96) := by
  have hs : getExpectedStrokes halfPuttShot.startLie halfPuttShot.startDistance
      = some 1.0405 := by
    show getExpectedStrokes Lie.GREEN (541/180/3.28084) = some 1.0405
    rw [ge_eq_interpolate Lie.GREEN _ (by norm_num)]
    simp [resolvedTable, nativeDistance]
    norm_num [PGA_BASELINE, interpolate, scanSegments, List.getLastD]
  have he : expectedEndB PGA_BASELINE halfPuttShot = some 0 := by
    simp [expectedEndB, isHoled, halfPuttShot]
  have hsu : strokesUsed halfPuttShot = 2 := by
    simp [strokesUsed, halfPuttShot]
  have h959 : round3 ((1.0405 : ℚ) - 0 - 2) = -0.959 := by
    unfold round3 jsMathRound
    rw [show ((1.0405 : ℚ) - 0 - 2) * 1000 + 1/2 = ((-959 : ℤ) : ℚ) by norm_num]
    rw [Int.floor_intCast]
    norm_num
  have hrz : roundHalfAwayFromZero3 ((1.0405 : ℚ) - 0 - 2) = -0.96 := by
    unfold roundHalfAwayFromZero3
    rw [if_neg (by norm_num)]
    rw [show -(((1.0405 : ℚ) - 0 - 2) * 1000) + 1/2 = ((960 : ℤ) : ℚ) by norm_num]
    rw [Int.floor_intCast]
    norm_num
  have hc := calcB_eq_of_some PGA_BASELINE halfPuttShot 1.0405 0 hs he
  refine ⟨hs, he, hsu, ?_, hrz, by norm_num⟩
  simp only [calculateStrokesGained, hc, hsu]
  rw [h959]

/-- C9: with the shipped `PGA_BASELINE`, `getExpectedStrokes` always returns
a number and `calculateStrokesGained` always returns a valid result with a
numeric sg — the invalid branch is unreachable. -/
theorem shipped_baseline_always_valid (lie : Lie) (d : ℚ) (shot : Shot) :
    (getExpectedStrokes lie d).isSome = true ∧
    (calculateStrokesGained shot).isValid = true ∧
    ((calculateStrokesGained shot).sg).isSome = true := by
  refine ⟨ge_isSome lie d, ?_⟩
  obtain ⟨es, hs⟩ := Option.isSome_iff_exists.mp (ge_isSome shot.startLie shot.startDistance)
  obtain ⟨ee, he⟩ := Option.isSome_iff_exists.mp (expectedEnd_isSome shot)
  have hc := calcB_eq_of_some PGA_BASELINE shot es ee hs he
  simp only [calculateStrokesGained, hc]
  exact ⟨trivial, rfl⟩

/-! ## Structure of `interpolate` on sorted tables -/

lemma getLastD_cons_cons (p q : ℚ × ℚ) (t : Table) (z : ℚ × ℚ) :
    (p :: q :: t).getLastD z = (q :: t).getLastD z := by
  simp [List.getLastD_cons]

lemma head_le_getLastD (p : ℚ × ℚ) (l : Table) (hs : distancesSorted (p :: l)) :
    p.1 ≤ ((p :: l).getLastD (0, 0)).1 := by
  induction l generalizing p with
  | nil => simp [List.getLastD]
  | cons q t ih =>
      obtain ⟨hpq, hs2⟩ := List.chain'_cons.mp hs
      rw [getLastD_cons_cons]
      exact le_trans (le_of_lt hpq) (ih q hs2)

lemma head_lt_getLastD (p q : ℚ × ℚ) (t : Table) (hs : distancesSorted (p :: q :: t)) :
    p.1 < ((p :: q :: t).getLastD (0, 0)).1 := by
  obtain ⟨hpq, hs2⟩ := List.chain'_cons.mp hs
  rw [getLastD_cons_cons]
  exact lt_of_lt_of_le hpq (head_le_getLastD q t hs2)

lemma interpolate_of_le_head (p : ℚ × ℚ) (l : Table) (x : ℚ) (h : x ≤ p.1) :
    interpolate (p :: l) x = p.2 := by
  simp [interpolate, h]

lemma interpolate_single (p : ℚ × ℚ) (x : ℚ) : interpolate [p] x = p.2 := by
  by_cases h : x ≤ p.1
  · simp [interpolate, h]
  · simp [interpolate, h, List.getLastD, le_of_not_le h]

lemma interpolate_of_getLastD_le (p : ℚ × ℚ) (l : Table) (hs : distancesSorted (p :: l))
    (x : ℚ) (h : ((p :: l).getLastD (0, 0)).1 ≤ x) :
    interpolate (p :: l) x = ((p :: l).getLastD (0, 0)).2 := by
  cases l with
  | nil =>
      rw [interpolate_single]
      rfl
  | cons q t =>
      have hlt : p.1 < ((p :: q :: t).getLastD (0, 0)).1 := head_lt_getLastD p q t hs
      have hx : ¬ x ≤ p.1 := not_le.mpr (lt_of_lt_of_le hlt h)
      simp only [interpolate]
      rw [if_neg hx, if_pos h]

lemma seg_lower (d0 s0 d1 s1 x : ℚ) (hd : d0 < d1) (hsv : s0 ≤ s1) (hx : d0 ≤ x) :
    s0 ≤ s0 + (x - d0) / (d1 - d0) * (s1 - s0) := by
  have ht : 0 ≤ (x - d0) / (d1 - d0) := div_nonneg (by linarith) (by linarith)
  have := mul_nonneg ht (sub_nonneg.mpr hsv)
  linarith

lemma seg_upper (d0 s0 d1 s1 x : ℚ) (hd : d0 < d1) (hsv : s0 ≤ s1) (hx : x ≤ d1) :
    s0 + (x - d0) / (d1 - d0) * (s1 - s0) ≤ s1 := by
  have hpos : (0 : ℚ) < d1 - d0 := by linarith
  have ht : (x - d0) / (d1 - d0) ≤ 1 := by
    rw [div_le_one hpos]
    linarith
  have := mul_le_mul_of_nonneg_right ht (sub_nonneg.mpr hsv)
  linarith

lemma seg_mono (d0 s0 d1 s1 x y : ℚ) (hd : d0 < d1) (hsv : s0 ≤ s1) (hxy : x ≤ y) :
    s0 + (x - d0) / (d1 - d0) * (s1 - s0) ≤ s0 + (y - d0) / (d1 - d0) * (s1 - s0) := by
  have hpos : (0 : ℚ) < d1 - d0 := by linarith
  have ht : (x - d0) / (d1 - d0) ≤ (y - d0) / (d1 - d0) := by
    gcongr
  have := mul_le_mul_of_nonneg_right ht (sub_nonneg.mpr hsv)
  linarith

lemma scanSegments_cons (p q : ℚ × ℚ) (t : Table) (x fb : ℚ) :
    scanSegments (p :: q :: t) x fb =
      if p.1 ≤ x ∧ x ≤ q.1 then p.2 + (x - p.1) / (q.1 - p.1) * (q.2 - p.2)
      else scanSegments (q :: t) x fb := rfl

lemma interpolate_cons (p : ℚ × ℚ) (l : Table) (x : ℚ) :
    interpolate (p :: l) x =
      if x ≤ p.1 then p.2
      else if ((p :: l).getLastD (0, 0)).1 ≤ x then ((p :: l).getLastD (0, 0)).2
      else scanSegments (p :: l) x (((p :: l).getLastD (0, 0)).2) := rfl

lemma interpolate_first_seg (p q : ℚ × ℚ) (t : Table) (hs : distancesSorted (p :: q :: t))
    (x : ℚ) (h0 : p.1 < x) (h1 : x ≤ q.1) :
    interpolate (p :: q :: t) x = p.2 + (x - p.1) / (q.1 - p.1) * (q.2 - p.2) := by
  obtain ⟨hpq, hs2⟩ := List.chain'_cons.mp hs
  have hx0 : ¬ x ≤ p.1 := not_le.mpr h0
  have hne : q.1 - p.1 ≠ 0 := sub_ne_zero.mpr (ne_of_gt hpq)
  by_cases hlast : ((p :: q :: t).getLastD (0, 0)).1 ≤ x
  · cases t with
    | nil =>
        have hlq : ((p :: q :: ([] : Table)).getLastD (0, 0)) = q := rfl
        rw [hlq] at hlast
        have hxq : x = q.1 := le_antisymm h1 hlast
        rw [interpolate_of_getLastD_le p [q] hs x (by rw [hlq]; exact hlast), hlq, hxq]
        rw [div_self hne, one_mul]
        ring
    | cons r t2 =>
        exfalso
        have hql : q.1 < ((q :: r :: t2).getLastD (0, 0)).1 := head_lt_getLastD q r t2 hs2
        rw [← getLastD_cons_cons p q (r :: t2) (0, 0)] at hql
        exact absurd hlast (not_le.mpr (lt_of_le_of_lt h1 hql))
  · rw [interpolate_cons, if_neg hx0, if_neg hlast, scanSegments_cons,
        if_pos ⟨le_of_lt h0, h1⟩]

lemma interpolate_tail (p q : ℚ × ℚ) (t : Table) (hs : distancesSorted (p :: q :: t))
    (x : ℚ) (hx : q.1 ≤ x) : interpolate (p :: q :: t) x = interpolate (q :: t) x := by
  obtain ⟨hpq, hs2⟩ := List.chain'_cons.mp hs
  have hx0 : ¬ x ≤ p.1 := not_le.mpr (lt_of_lt_of_le hpq hx)
  by_cases hlast : ((p :: q :: t).getLastD (0, 0)).1 ≤ x
  · rw [interpolate_of_getLastD_le p (q :: t) hs x hlast,
        interpolate_of_getLastD_le q t hs2 x (by rwa [getLastD_cons_cons] at hlast),
        getLastD_cons_cons]
  · have hlast2 : ¬ ((q :: t).getLastD (0, 0)).1 ≤ x := by
      rwa [getLastD_cons_cons] at hlast
    by_cases hxq : x ≤ q.1
    · have hxeq : x = q.1 := le_antisymm hxq hx
      have hne : q.1 - p.1 ≠ 0 := sub_ne_zero.mpr (ne_of_gt hpq)
      rw [interpolate_of_le_head q t x hxq, interpolate_cons, if_neg hx0, if_neg hlast,
          scanSegments_cons, if_pos ⟨le_of_lt (lt_of_lt_of_le hpq hx), hxq⟩, hxeq,
          div_self hne, one_mul]
      ring
    · cases t with
      | nil => exact absurd hx hlast2
      | cons r t2 =>
          have hcond : ¬ (p.1 ≤ x ∧ x ≤ q.1) := fun hc => hxq hc.2
          rw [interpolate_cons, if_neg hx0, if_neg hlast, scanSegments_cons, if_neg hcond,
              interpolate_cons, if_neg hxq, if_neg hlast2, getLastD_cons_cons]

lemma head_le_interpolate (p : ℚ × ℚ) (l : Table) (hs : distancesSorted (p :: l))
    (hm : valuesMono (p :: l)) (x : ℚ) : p.2 ≤ interpolate (p :: l) x := by
  induction l generalizing p with
  | nil => rw [interpolate_single]
  | cons q t ih =>
      obtain ⟨hpq, hs2⟩ := List.chain'_cons.mp hs
      obtain ⟨hvq, hm2⟩ := List.chain'_cons.mp hm
      by_cases hxp : x ≤ p.1
      · rw [interpolate_of_le_head p (q :: t) x hxp]
      · by_cases hxq : x ≤ q.1
        · rw [interpolate_first_seg p q t hs x (not_le.mp hxp) hxq]
          exact seg_lower p.1 p.2 q.1 q.2 x hpq hvq (le_of_not_le hxp)
        · rw [interpolate_tail p q t hs x (le_of_lt (not_le.mp hxq))]
          exact le_trans hvq (ih q hs2 hm2)

lemma interpolate_mono (p : ℚ × ℚ) (l : Table) (hs : distancesSorted (p :: l))
    (hm : valuesMono (p :: l)) (x y : ℚ) (hxy : x ≤ y) :
    interpolate (p :: l) x ≤ interpolate (p :: l) y := by
  induction l generalizing p with
  | nil => rw [interpolate_single, interpolate_single]
  | cons q t ih =>
      obtain ⟨hpq, hs2⟩ := List.chain'_cons.mp hs
      obtain ⟨hvq, hm2⟩ := List.chain'_cons.mp hm
      by_cases hyq : y ≤ q.1
      · have hxq : x ≤ q.1 := le_trans hxy hyq
        by_cases hxp : x ≤ p.1
        · rw [interpolate_of_le_head p (q :: t) x hxp]
          exact head_le_interpolate p (q :: t) hs hm y
        · have hyp : ¬ y ≤ p.1 := fun hc => hxp (le_trans hxy hc)
          rw [interpolate_first_seg p q t hs x (not_le.mp hxp) hxq,
              interpolate_first_seg p q t hs y (not_le.mp hyp) hyq]
          exact seg_mono p.1 p.2 q.1 q.2 x y hpq hvq hxy
      · by_cases hxq : x ≤ q.1
        · have hL : interpolate (p :: q :: t) x ≤ q.2 := by
            by_cases hxp : x ≤ p.1
            · rw [interpolate_of_le_head p (q :: t) x hxp]
              exact hvq
            · rw [interpolate_first_seg p q t hs x (not_le.mp hxp) hxq]
              exact seg_upper p.1 p.2 q.1 q.2 x hpq hvq hxq
          have hR : q.2 ≤ interpolate (p :: q :: t) y := by
            rw [interpolate_tail p q t hs y (le_of_lt (not_le.mp hyq))]
            exact head_le_interpolate q t hs2 hm2 y
          exact le_trans hL hR
        · rw [interpolate_tail p q t hs x (le_of_lt (not_le.mp hxq)),
              interpolate_tail p q t hs y (le_of_lt (not_le.mp hyq))]
          exact ih q hs2 hm2

lemma interpolate_mono_of_ne_nil (pts : Table) (hne : pts ≠ []) (hs : distancesSorted pts)
    (hm : valuesMono pts) (x y : ℚ) (hxy : x ≤ y) :
    interpolate pts x ≤ interpolate pts y := by
  cases pts with
  | nil => exact absurd rfl hne
  | cons p l => exact interpolate_mono p l hs hm x y hxy

lemma fairway_sorted : distancesSorted (resolvedTable Lie.FAIRWAY) := by
  show distancesSorted (PGA_BASELINE Lie.FAIRWAY)
  simp only [PGA_BASELINE]
  norm_num [distancesSorted, List.chain'_cons, List.chain'_singleton]

lemma fairway_mono : valuesMono (resolvedTable Lie.FAIRWAY) := by
  show valuesMono (PGA_BASELINE Lie.FAIRWAY)
  simp only [PGA_BASELINE]
  norm_num [valuesMono, List.chain'_cons, List.chain'_singleton]

lemma rough_sorted : distancesSorted (resolvedTable Lie.ROUGH) := by
  show distancesSorted (PGA_BASELINE Lie.ROUGH)
  simp only [PGA_BASELINE]
  norm_num [distancesSorted, List.chain'_cons, List.chain'_singleton]

lemma rough_mono : valuesMono (resolvedTable Lie.ROUGH) := by
  show valuesMono (PGA_BASELINE Lie.ROUGH)
  simp only [PGA_BASELINE]
  norm_num [valuesMono, List.chain'_cons, List.chain'_singleton]

lemma green_sorted : distancesSorted (resolvedTable Lie.GREEN) := by
  show distancesSorted (PGA_BASELINE Lie.GREEN)
  simp only [PGA_BASELINE]
  norm_num [distancesSorted, List.chain'_cons, List.chain'_singleton]

lemma green_mono : valuesMono (resolvedTable Lie.GREEN) := by
  show valuesMono (PGA_BASELINE Lie.GREEN)
  simp only [PGA_BASELINE]
  norm_num [valuesMono, List.chain'_cons, List.chain'_singleton]

lemma resolved_ne_nil (lie : Lie) : resolvedTable lie ≠ [] := by
  cases lie <;> exact List.cons_ne_nil _ _

/-- C3 (amended): `expectedStrokes` is monotone non-decreasing in distance
for the curves whose control values are non-decreasing — FAIRWAY, ROUGH and
GREEN. -/
theorem expectedStrokes_monotone_on_nondecreasing_curves (lie : Lie)
    (hlie : lie = Lie.FAIRWAY ∨ lie = Lie.ROUGH ∨ lie = Lie.GREEN)
    (x y a b : ℚ) (hx : 0 < x) (hxy : x ≤ y)
    (ha : getExpectedStrokes lie x = some a) (hb : getExpectedStrokes lie y = some b) :
    a ≤ b := by
  have hy : 0 < y := lt_of_lt_of_le hx hxy
  rw [ge_eq_interpolate lie x hx] at ha
  rw [ge_eq_interpolate lie y hy] at hb
  obtain rfl := Option.some.inj ha
  obtain rfl := Option.some.inj hb
  have hconv : nativeDistance lie x ≤ nativeDistance lie y := by
    rcases hlie with rfl | rfl | rfl
    · show x / 0.9144 ≤ y / 0.9144
      gcongr
    · show x / 0.9144 ≤ y / 0.9144
      gcongr
    · show x * 3.28084 ≤ y * 3.28084
      exact mul_le_mul_of_nonneg_right hxy (by norm_num)
  rcases hlie with rfl | rfl | rfl
  · exact interpolate_mono_of_ne_nil _ (resolved_ne_nil _) fairway_sorted fairway_mono _ _ hconv
  · exact interpolate_mono_of_ne_nil _ (resolved_ne_nil _) rough_sorted rough_mono _ _ hconv
  · exact interpolate_mono_of_ne_nil _ (resolved_ne_nil _) green_sorted green_mono _ _ hconv

theorem expectedStrokes_monotone_witness :
    (Lie.FAIRWAY = Lie.FAIRWAY ∨ Lie.FAIRWAY = Lie.ROUGH ∨ Lie.FAIRWAY = Lie.GREEN) ∧
    (0 : ℚ) < 18.288 ∧ (18.288 : ℚ) ≤ 27.432 ∧
    getExpectedStrokes Lie.FAIRWAY 18.288 = some 2.4 ∧
    getExpectedStrokes Lie.FAIRWAY 27.432 = some 2.5 ∧
    (2.4 : ℚ) ≤ 2.5 := by
  have h1 : getExpectedStrokes Lie.FAIRWAY 18.288 = some 2.4 := by
    rw [ge_eq_interpolate Lie.FAIRWAY 18.288 (by norm_num)]
    simp only [resolvedTable, nativeDistance]
    simp
    norm_num [PGA_BASELINE, interpolate, scanSegments, List.getLastD]
  have h2 : getExpectedStrokes Lie.FAIRWAY 27.432 = some 2.5 := by
    rw [ge_eq_interpolate Lie.FAIRWAY 27.432 (by norm_num)]
    simp only [resolvedTable, nativeDistance]
    simp
    norm_num [PGA_BASELINE, interpolate, scanSegments, List.getLastD]
  exact ⟨Or.inl rfl, by norm_num, by norm_num, h1, h2,
    expectedStrokes_monotone_on_nondecreasing_curves Lie.FAIRWAY (Or.inl rfl)
      18.288 27.432 2.4 2.5 (by norm_num) (by norm_num) h1 h2⟩

/-- C3 counterexample: the TEE curve decreases between its 120- and 140-yard
control points (2.99 to 2.97); 109.728 m and 128.016 m convert to exactly
120 and 140 yards, inside the curve's 100-600 yard domain, yet the expected
strokes decrease. -/
theorem expectedStrokes_not_monotone_on_TEE_cex :
    (109.728 : ℚ) < 128.016 ∧
    ((100 : ℚ) ≤ 109.728 / 0.9144 ∧ (128.016 : ℚ) / 0.9144 ≤ 600) ∧
    getExpectedStrokes Lie.TEE 109.728 = some 2.99 ∧
    getExpectedStrokes Lie.TEE 128.016 = some 2.97 ∧
    ¬ ((2.99 : ℚ) ≤ 2.97) := by
  refine ⟨by norm_num, ⟨by norm_num, by norm_num⟩, ?_, ?_, by norm_num⟩
  · rw [ge_eq_interpolate Lie.TEE 109.728 (by norm_num)]
    simp only [resolvedTable, nativeDistance]
    simp
    norm_num [PGA_BASELINE, interpolate, scanSegments, List.getLastD]
  · rw [ge_eq_interpolate Lie.TEE 128.016 (by norm_num)]
    simp only [resolvedTable, nativeDistance]
    simp
    norm_num [PGA_BASELINE, interpolate, scanSegments, List.getLastD]

lemma firstBracket_cons (p q : ℚ × ℚ) (t : Table) (x : ℚ) :
    firstBracket (p :: q :: t) x =
      if p.1 ≤ x ∧ x ≤ q.1 then some (p, q) else firstBracket (q :: t) x := by
  by_cases h : p.1 ≤ x ∧ x ≤ q.1
  · rw [if_pos h]
    simp [firstBracket, segmentPairs, h]
  · rw [if_neg h]
    simp [firstBracket, segmentPairs, h]

lemma scan_eq_bracket (p q : ℚ × ℚ) (t : Table) (x fb : ℚ) (r s : ℚ × ℚ)
    (hb : firstBracket (p :: q :: t) x = some (r, s)) :
    scanSegments (p :: q :: t) x fb = r.2 + (x - r.1) / (s.1 - r.1) * (s.2 - r.2) := by
  induction t generalizing p q with
  | nil =>
      rw [firstBracket_cons] at hb
      by_cases h : p.1 ≤ x ∧ x ≤ q.1
      · rw [if_pos h] at hb
        simp only [Option.some.injEq, Prod.mk.injEq] at hb
        obtain ⟨rfl, rfl⟩ := hb
        rw [scanSegments_cons, if_pos h]
      · rw [if_neg h] at hb
        exact absurd hb (by simp [firstBracket, segmentPairs])
  | cons r2 t2 ih =>
      rw [firstBracket_cons] at hb
      by_cases h : p.1 ≤ x ∧ x ≤ q.1
      · rw [if_pos h] at hb
        simp only [Option.some.injEq, Prod.mk.injEq] at hb
        obtain ⟨rfl, rfl⟩ := hb
        rw [scanSegments_cons, if_pos h]
      · rw [if_neg h] at hb
        rw [scanSegments_cons, if_neg h]
        exact ih q r2 hb

lemma firstBracket_exists (p q : ℚ × ℚ) (t : Table) (hs : distancesSorted (p :: q :: t))
    (x : ℚ) (hx0 : p.1 < x) (hx1 : x < ((p :: q :: t).getLastD (0, 0)).1) :
    ∃ rs : (ℚ × ℚ) × (ℚ × ℚ), firstBracket (p :: q :: t) x = some rs := by
  induction t generalizing p q with
  | nil =>
      have hq : x ≤ q.1 := le_of_lt hx1
      exact ⟨(p, q), by rw [firstBracket_cons, if_pos ⟨le_of_lt hx0, hq⟩]⟩
  | cons r t2 ih =>
      by_cases hq : x ≤ q.1
      · exact ⟨(p, q), by rw [firstBracket_cons, if_pos ⟨le_of_lt hx0, hq⟩]⟩
      · obtain ⟨hpq, hs2⟩ := List.chain'_cons.mp hs
        have hx1a : x < ((q :: r :: t2).getLastD (0, 0)).1 := by
          rwa [getLastD_cons_cons] at hx1
        obtain ⟨rs, hrs⟩ := ih q r hs2 (not_le.mp hq) hx1a
        exact ⟨rs, by rw [firstBracket_cons, if_neg (fun hc => hq hc.2)]; exact hrs⟩

lemma interpolate_eq_specLookup (p : ℚ × ℚ) (l : Table) (hs : distancesSorted (p :: l))
    (x : ℚ) : some (interpolate (p :: l) x) = specLookup (p :: l) x := by
  by_cases h1 : x ≤ p.1
  · rw [interpolate_of_le_head p l x h1]
    simp only [specLookup]
    rw [if_pos h1]
  · by_cases h2 : ((p :: l).getLastD (0, 0)).1 ≤ x
    · rw [interpolate_of_getLastD_le p l hs x h2]
      simp only [specLookup]
      rw [if_neg h1, if_pos h2]
    · cases l with
      | nil => exact absurd (le_of_not_le h1) h2
      | cons q t =>
          obtain ⟨⟨r, s⟩, hb⟩ := firstBracket_exists p q t hs x (not_le.mp h1) (not_le.mp h2)
          rw [interpolate_cons, if_neg h1, if_neg h2, scan_eq_bracket p q t x _ r s hb]
          simp only [specLookup]
          rw [if_neg h1, if_neg h2, hb]

lemma tee_sorted : distancesSorted (resolvedTable Lie.TEE) := by
  show distancesSorted (PGA_BASELINE Lie.TEE)
  simp only [PGA_BASELINE]
  norm_num [distancesSorted, List.chain'_cons, List.chain'_singleton]

lemma bunker_sorted : distancesSorted (resolvedTable Lie.BUNKER) := by
  show distancesSorted (PGA_BASELINE Lie.BUNKER)
  simp only [PGA_BASELINE]
  norm_num [distancesSorted, List.chain'_cons, List.chain'_singleton]

lemma recovery_sorted : distancesSorted (resolvedTable Lie.RECOVERY) := by
  show distancesSorted (PGA_BASELINE Lie.RECOVERY)
  simp only [PGA_BASELINE]
  norm_num [distancesSorted, List.chain'_cons, List.chain'_singleton]

lemma resolved_sorted (lie : Lie) : distancesSorted (resolvedTable lie) := by
  cases lie with
  | TEE => exact tee_sorted
  | FAIRWAY => exact fairway_sorted
  | ROUGH => exact rough_sorted
  | BUNKER => exact bunker_sorted
  | RECOVERY => exact recovery_sorted
  | GREEN => exact green_sorted
  | FRINGE => exact fairway_sorted

/-- C5: for a positive distance and a non-empty resolved curve,
`getExpectedStrokes` behaves exactly as the spec's description: convert to
the curve's native unit (feet times 3.28084 on the green, yards by dividing
by 0.9144 otherwise), clamp below the first and above the last control
point, and otherwise linearly interpolate on the first consecutive
bracketing pair, scanning pairs in order. -/
theorem getExpectedStrokes_matches_spec (lie : Lie) (d : ℚ) (hd : 0 < d)
    (hne : resolvedTable lie ≠ []) :
    getExpectedStrokes lie d = specLookup (resolvedTable lie) (nativeDistance lie d) := by
  rw [ge_eq_interpolate lie d hd]
  have hs : distancesSorted (resolvedTable lie) := resolved_sorted lie
  obtain ⟨p, l, hpl⟩ : ∃ p l, resolvedTable lie = p :: l := by
    cases hres : resolvedTable lie with
    | nil => exact absurd hres hne
    | cons p l => exact ⟨p, l, rfl⟩
  rw [hpl] at hs ⊢
  exact interpolate_eq_specLookup p l hs (nativeDistance lie d)

theorem getExpectedStrokes_matches_spec_witness :
    (0 : ℚ) < 18.288 ∧ resolvedTable Lie.FAIRWAY ≠ [] ∧
    getExpectedStrokes Lie.FAIRWAY 18.288 =
      specLookup (resolvedTable Lie.FAIRWAY) (nativeDistance Lie.FAIRWAY 18.288) :=
  ⟨by norm_num, resolved_ne_nil Lie.FAIRWAY,
   getExpectedStrokes_matches_spec Lie.FAIRWAY 18.288 (by norm_num)
     (resolved_ne_nil Lie.FAIRWAY)⟩
